import Mathlib

/-!
A shallow embedding of the power-range core (src/index.ts): a query-and-mutation
engine over a header-addressed table. Cell values are modelled by `JSVal`
(strings, integer numbers, booleans, undefined); numeric strings are modelled as
integers and the regular-expression operators (`match`, `matchAny`) and regex
operands are outside the modelled value domain, since no verified property uses
them. The backing spreadsheet is modelled by `Sheet`: the list of populated rows
(`getLastRow` is their count) plus the column count; an empty cell reads as the
empty string, and deleting a row out of range leaves the store unchanged.
-/

set_option autoImplicit false

/-- A dynamic JavaScript value, restricted to the shapes the engine stores in
cells and records: string, (integer) number, boolean, undefined. -/
inductive JSVal where
  | str : String → JSVal
  | num : Int → JSVal
  | bool : Bool → JSVal
  | undef : JSVal
deriving DecidableEq, Repr

/-- JavaScript truthiness of a value. -/
def truthy : JSVal → Bool
  | JSVal.str s => !(s == "")
  | JSVal.num n => !(n == 0)
  | JSVal.bool b => b
  | JSVal.undef => false

/-- JavaScript `a || b`: the left value when truthy, else the right value. -/
def jsOr (a b : JSVal) : JSVal :=
  if truthy a then a else b

/-- The string a value turns into when used as an object key. -/
def keyOf : JSVal → String
  | JSVal.str s => s
  | JSVal.num n => toString n
  | JSVal.bool b => if b then "true" else "false"
  | JSVal.undef => "undefined"

/-- JavaScript ToNumber, restricted to integer results; `none` stands for NaN. -/
def toNum : JSVal → Option Int
  | JSVal.num n => some n
  | JSVal.bool b => some (if b then 1 else 0)
  | JSVal.str s => if s == "" then some 0 else s.toInt?
  | JSVal.undef => none

/-- JavaScript loose equality `==` on the modelled value domain. -/
def looseEq (a b : JSVal) : Bool :=
  match a, b with
  | JSVal.undef, JSVal.undef => true
  | JSVal.undef, _ => false
  | _, JSVal.undef => false
  | JSVal.str x, JSVal.str y => x == y
  | a, b =>
    match toNum a, toNum b with
    | some x, some y => x == y
    | _, _ => false

/-- JavaScript `a < b`: lexicographic when both are strings, else numeric. -/
def jsLt (a b : JSVal) : Bool :=
  match a, b with
  | JSVal.str x, JSVal.str y => decide (x < y)
  | a, b =>
    match toNum a, toNum b with
    | some x, some y => decide (x < y)
    | _, _ => false

/-- JavaScript `a <= b`: lexicographic when both are strings, else numeric. -/
def jsLe (a b : JSVal) : Bool :=
  match a, b with
  | JSVal.str x, JSVal.str y => decide (x ≤ y)
  | a, b =>
    match toNum a, toNum b with
    | some x, some y => decide (x ≤ y)
    | _, _ => false

/-- A JavaScript object: an insertion-ordered association list. -/
abbrev Obj := List (String × JSVal)

/-- Property read `o[k]`: the first binding of the key, else undefined. -/
def objGet (o : Obj) (k : String) : JSVal :=
  match o.find? (fun p => p.1 == k) with
  | some p => p.2
  | none => JSVal.undef

/-- Whether the object has a binding for the key. -/
def objHasKey (o : Obj) (k : String) : Bool :=
  o.any (fun p => p.1 == k)

/-- Property write `o[k] = v`: updates an existing binding in place, else
appends the binding (JavaScript insertion-order semantics). -/
def objSet (o : Obj) (k : String) (v : JSVal) : Obj :=
  if objHasKey o k then o.map (fun p => if p.1 == k then (k, v) else p)
  else o ++ [(k, v)]

/-- An operand attached to a predicate operator in a where-clause. -/
inductive Operand where
  | val : JSVal → Operand
  | vals : List JSVal → Operand
  | bounds : List Int → Operand
deriving DecidableEq, Repr

/-- The value of one where-clause key: a scalar (sugar for `equal`) or a
literal object of operator-name/operand pairs. -/
inductive WhereVal where
  | scalar : JSVal → WhereVal
  | ops : List (String × Operand) → WhereVal
deriving DecidableEq, Repr

/-- A where-clause object: column name to scalar or operator map. -/
abbrev WhereClause := List (String × WhereVal)

/-- The fixed operator catalog (`methods` in `where`), as a partial lookup:
`none` models the TypeError raised when an unknown operator name is applied.
The regex operators are outside the modelled value domain. -/
def applyMethod (name : String) (value : JSVal) (operand : Operand) : Option Bool :=
  match name, operand with
  | "equal", Operand.val e => some (looseEq value e)
  | "deepEqual", Operand.val e => some (value == e)
  | "gt", Operand.val e => some (jsLt e value)
  | "gte", Operand.val e => some (jsLe e value)
  | "lt", Operand.val e => some (jsLt value e)
  | "lte", Operand.val e => some (jsLe value e)
  | "includes", Operand.vals es => some (es.contains value)
  | "excludes", Operand.vals es => some (!es.contains value)
  | "between", Operand.bounds es =>
    some (match es.min?, es.max? with
      | some m, some M => jsLe (JSVal.num m) value && jsLe value (JSVal.num M)
      | _, _ => false)
  | _, _ => none

/-- `column.methods.every(method => methods[method.name](value, method.value))`:
short-circuit conjunction; an unknown operator name faults when reached. -/
def evalPairs (value : JSVal) : List (String × Operand) → Except String Bool
  | [] => Except.ok true
  | p :: rest =>
    match applyMethod p.1 value p.2 with
    | none => Except.error ("TypeError: methods." ++ p.1 ++ " is not a function")
    | some false => Except.ok false
    | some true => evalPairs value rest

/-- `Array.prototype.filter` with a predicate that may throw. -/
def filterE {α : Type} (p : α → Except String Bool) : List α → Except String (List α)
  | [] => Except.ok []
  | a :: as =>
    match p a with
    | Except.error e => Except.error e
    | Except.ok true => (filterE p as).map (fun l => a :: l)
    | Except.ok false => filterE p as

/-- The `RangeNotation` constructor default `option || 1`. -/
def orOne : Option Nat → Nat
  | none => 1
  | some n => if n = 0 then 1 else n

/-- A `RangeNotation`: the 4-tuple `(row, column, numRows, numColumns)`. -/
structure LocationDescriptor where
  row : Nat
  column : Nat
  numRows : Nat
  numColumns : Nat
deriving DecidableEq, Repr

/-- `new RangeNotation(options)` with each missing or falsy field defaulting
to 1. -/
def mkLoc (row column numRows numColumns : Option Nat) : LocationDescriptor :=
  { row := orOne row, column := orOne column,
    numRows := orOne numRows, numColumns := orOne numColumns }

/-- The backing store: the populated rows of the sheet and its column count. -/
structure Sheet where
  cells : List (List JSVal)
  ncols : Nat
deriving DecidableEq, Repr

/-- `getLastRow()`: the number of populated rows. -/
def Sheet.getLastRow (s : Sheet) : Nat := s.cells.length

/-- `getLastColumn()`: the number of columns. -/
def Sheet.getLastColumn (s : Sheet) : Nat := s.ncols

/-- `getRange(row, col).getValue()`: a 1-based point read; an absent cell
reads as the empty string. -/
def Sheet.getValue (s : Sheet) (row col : Nat) : JSVal :=
  (s.cells.getD (row - 1) []).getD (col - 1) (JSVal.str "")

/-- `getRange(row, col, numRows, numCols).getValues()`: a rectangular read. -/
def Sheet.readRegion (s : Sheet) (row col numRows numCols : Nat) : List (List JSVal) :=
  (List.range numRows).map (fun i =>
    (List.range numCols).map (fun j => s.getValue (row + i) (col + j)))

/-- Pads a list on the right with a default up to the given length. -/
def padTo {α : Type} (l : List α) (n : Nat) (d : α) : List α :=
  l ++ List.replicate (n - l.length) d

/-- Overwrites the 1-based positions `col .. col + vals.length - 1` of a row
with `vals`, padding any gap with the default. -/
def spliceAt {α : Type} (l : List α) (col : Nat) (vals : List α) (d : α) : List α :=
  padTo (l.take (col - 1)) (col - 1) d ++ vals ++ l.drop (col - 1 + vals.length)

/-- Writes one row of values at a 1-based row/column, padding missing rows. -/
def Sheet.writeRowAt (s : Sheet) (row col : Nat) (vals : List JSVal) : Sheet :=
  let cells := padTo s.cells row []
  { s with cells :=
      cells.set (row - 1) (spliceAt (cells.getD (row - 1) []) col vals (JSVal.str "")) }

/-- `getRange(row, col, …).setValues(grid)`: writes a grid row by row. -/
def Sheet.writeRegion (s : Sheet) (row col : Nat) (grid : List (List JSVal)) : Sheet :=
  grid.enum.foldl (fun sh p => sh.writeRowAt (row + p.1) col p.2) s

/-- `deleteRow(row)`: removes the 1-based row; out of range leaves the store
unchanged (an out-of-range request is a store-level fault outside the core). -/
def Sheet.deleteRow (s : Sheet) (row : Int) : Sheet :=
  if 1 ≤ row then { s with cells := s.cells.eraseIdx (row.toNat - 1) } else s

/-- Keys a list of header cells by consecutive positions starting at `k`. -/
def mkHeadersFrom (k : Nat) : List JSVal → List (Nat × JSVal)
  | [] => []
  | h :: t => (k, h) :: mkHeadersFrom (k + 1) t

/-- The headers object `{index + 1: item}` built from a list of header cells. -/
def mkHeaders (hs : List JSVal) : List (Nat × JSVal) :=
  mkHeadersFrom 1 hs

/-- The `configs` record set up by the constructor. -/
structure Configs where
  headerRowNumber : Nat
  firstRowNumber : Nat
  firstColumnNumber : Nat
  lastColumnNumber : Nat
  offset : Nat
deriving DecidableEq, Repr

/-- The `RangeManager` state: the bound sheet, the current ranges, the stored
where-clause and the configs. -/
structure RangeManager where
  sheet : Sheet
  ranges : List LocationDescriptor
  whereOptions : Option WhereClause
  configs : Configs
deriving DecidableEq, Repr

/-- The constructor body after the sheet has been located: empty ranges, no
where-clause, and the fixed configs capturing the sheet width. -/
def RangeManager.make (sheet : Sheet) : RangeManager :=
  { sheet := sheet, ranges := [], whereOptions := none,
    configs := { headerRowNumber := 1, firstRowNumber := 2, firstColumnNumber := 1,
                 lastColumnNumber := sheet.getLastColumn, offset := 1 } }

/-- The `headers` getter: reads the header row and keys each cell by its
1-based position. -/
def RangeManager.headers (m : RangeManager) : List (Nat × JSVal) :=
  mkHeaders ((m.sheet.readRegion m.configs.headerRowNumber m.configs.firstColumnNumber
    m.configs.offset m.configs.lastColumnNumber).getD 0 [])

/-- `serializeRow(headers, data, currentValues)`: for every header entry in
order, the record value if truthy, else the current value if truthy, else the
empty string. -/
def serializeRow (headers : List (Nat × JSVal)) (data : Obj)
    (currentValues : List JSVal := []) : List JSVal :=
  headers.map (fun e =>
    jsOr (jsOr (objGet data (keyOf e.2)) (currentValues.getD (e.1 - 1) JSVal.undef))
      (JSVal.str ""))

/-- The body of the `reduce` in `deserializeRow`: insert the column when it is
requested, taking the record value if truthy, else the current value. -/
def dStep (colNames2 : List JSVal) (data : Obj) (currentValues : List JSVal)
    (total : Obj) (e : Nat × JSVal) : Obj :=
  if colNames2.contains e.2 then
    objSet total (keyOf e.2)
      (jsOr (objGet data (keyOf e.2)) (currentValues.getD (e.1 - 1) JSVal.undef))
  else total

/-- `deserializeRow(headers, data, currentValues, colNames)`: validates the
requested names against the header values (batch error), defaults the request
to all header values, then folds the header entries in order. -/
def deserializeRow (headers : List (Nat × JSVal)) (data : Obj)
    (currentValues : List JSVal := []) (colNames : List String := []) :
    Except String Obj :=
  let invalidCols := colNames.filter (fun c => !((headers.map Prod.snd).contains (JSVal.str c)))
  if invalidCols.length > 0 then
    Except.error ("[ERROR] Invalid col name(s) found: " ++ String.intercalate "," invalidCols)
  else
    let colNames2 := if colNames.length = 0 then headers.map Prod.snd
      else colNames.map JSVal.str
    Except.ok (headers.foldl (dStep colNames2 data currentValues) [])

/-- The sequential body of `update`: for each stored range, read the row,
merge the record over it (deserialize then serialize), and write it back. -/
def updateLoop (data : Obj) :
    RangeManager → List LocationDescriptor → Except String RangeManager
  | m, [] => Except.ok m
  | m, loc :: rest =>
    match deserializeRow m.headers data
        ((m.sheet.readRegion loc.row loc.column loc.numRows loc.numColumns).getD 0 []) [] with
    | Except.error e => Except.error e
    | Except.ok deserialized =>
      let s2 := m.sheet.writeRegion loc.row loc.column [serializeRow m.headers deserialized []]
      updateLoop data { m with sheet := s2 } rest

/-- `update(data)`: merges the record over every row currently selected. -/
def RangeManager.update (m : RangeManager) (data : Obj) : Except String RangeManager :=
  if m.ranges.length > 0 then updateLoop data m m.ranges else Except.ok m

/-- The `forEach((row, index) => deleteRow(row - index))` body of
`deleteRows`, with the running index as second argument; the second component
of the result is the trace of targets handed to the store, in call order. -/
def deleteLoop : Sheet → Nat → List Nat → Sheet × List Int
  | s, _, [] => (s, [])
  | s, i, r :: rest =>
    let t : Int := (r : Int) - (i : Int)
    let res := deleteLoop (s.deleteRow t) (i + 1) rest
    (res.1, t :: res.2)

/-- `deleteRows()`: deletes `row - index` for each selected row in order; the
second component is the trace of 1-based targets handed to the store. -/
def RangeManager.deleteRows (m : RangeManager) : RangeManager × List Int :=
  if m.ranges.length > 0 then
    let res := deleteLoop m.sheet 0 (m.ranges.map LocationDescriptor.row)
    ({ m with sheet := res.1 }, res.2)
  else (m, [])

/-- `append(data)`: serializes the record with no current values and writes it
as a new row right after the last populated row. -/
def RangeManager.append (m : RangeManager) (data : Obj) : RangeManager :=
  let s2 := m.sheet.writeRegion (m.sheet.getLastRow + 1) 1 [serializeRow m.headers data []]
  { m with sheet := s2 }

/-- `prepend(data)`: rereads the data block, clears the first data row, and
rewrites the block with the new serialized row first. -/
def RangeManager.prepend (m : RangeManager) (data : Obj) : RangeManager :=
  let currentNumRows := m.sheet.getLastRow
  let numColumns := m.sheet.getLastColumn
  if numColumns ≠ 0 ∧ currentNumRows ≠ 0 then
    let currentData := m.sheet.readRegion 2 1 (currentNumRows - 1) numColumns
    let newValues := serializeRow m.headers data []
    let s1 := m.sheet.writeRegion m.configs.firstRowNumber m.configs.firstColumnNumber
      [List.replicate numColumns (JSVal.str "")]
    let s2 := s1.writeRegion m.configs.firstRowNumber m.configs.firstColumnNumber
      (newValues :: currentData)
    { m with sheet := s2 }
  else m

/-- The sequential body of `fetch`: read and deserialize each selected row. -/
def fetchLoop (m : RangeManager) (colNames : List String) :
    List LocationDescriptor → Except String (List Obj)
  | [] => Except.ok []
  | loc :: rest =>
    match deserializeRow m.headers []
        ((m.sheet.readRegion loc.row loc.column loc.numRows loc.numColumns).getD 0 [])
        colNames with
    | Except.error e => Except.error e
    | Except.ok o => (fetchLoop m colNames rest).map (fun l => o :: l)

/-- `fetch(colNames)`: deserializes every selected row; touches no state. -/
def RangeManager.fetch (m : RangeManager) (colNames : List String) :
    RangeManager × Except String (List Obj) :=
  (m, fetchLoop m colNames m.ranges)

/-- One compiled predicate group: the 1-based column id and its
operator-name/operand pairs. -/
structure ColSpec where
  colId : Nat
  methods : List (String × Operand)
deriving DecidableEq, Repr

/-- The clause value stored under a key (`options[colName]`). -/
def clauseGet (options : WhereClause) (colName : String) : WhereVal :=
  ((options.find? (fun p => p.1 == colName)).map Prod.snd).getD (WhereVal.scalar JSVal.undef)

/-- The `cols` compilation step of `where`: resolve each key to its first
header position and spell a scalar as a single `equal` pair. -/
def buildCols (m : RangeManager) (options : WhereClause) (colNames : List String) :
    Except String (List ColSpec) :=
  colNames.mapM (fun colName =>
    match m.headers.find? (fun e => e.2 == JSVal.str colName) with
    | none => Except.error ("No header found for column name: " ++ colName)
    | some e =>
      let pairs := match clauseGet options colName with
        | WhereVal.ops l => l
        | WhereVal.scalar v => [("equal", Operand.val v)]
      Except.ok { colId := e.1, methods := pairs })

/-- The `rows` scan of `where`: start from the candidate row numbers
`firstRowNumber .. firstRowNumber + lastRow - 1` and narrow them group by
group with one point read per candidate. -/
def scanRows (m : RangeManager) (cols : List ColSpec) : Except String (List Nat) :=
  let candidates := (List.range m.sheet.getLastRow).map (fun i => i + m.configs.firstRowNumber)
  cols.foldlM (fun rows col =>
    filterE (fun row => evalPairs (m.sheet.getValue row col.colId) col.methods) rows)
    candidates

/-- `where(options)`: stores the clause, validates the keys against the header
values (batch error), compiles the predicate groups, scans the rows, and
replaces the ranges with one full-width single-row descriptor per survivor.
The pair carries the state as left behind by the call and its outcome. -/
def RangeManager.whereM (m0 : RangeManager) (options : WhereClause) :
    RangeManager × Except String Unit :=
  let m := { m0 with whereOptions := some options }
  let colNames := options.map Prod.fst
  let invalidCols := colNames.filter (fun c => !((m.headers.map Prod.snd).contains (JSVal.str c)))
  if invalidCols.length > 0 then
    (m, Except.error ("[ERROR] Invalid col name(s) found: " ++ String.intercalate "," invalidCols))
  else
    match buildCols m options colNames with
    | Except.error e => (m, Except.error e)
    | Except.ok cols =>
      match scanRows m cols with
      | Except.error e => (m, Except.error e)
      | Except.ok rows =>
        ({ m with ranges := rows.map (fun row =>
            mkLoc (some row) none none (some m.sheet.getLastColumn)) },
         Except.ok ())

/-- `refresh()`: replays the stored where-clause when one is present. -/
def RangeManager.refresh (m : RangeManager) : RangeManager × Except String Unit :=
  match m.whereOptions with
  | some o => m.whereM o
  | none => (m, Except.ok ())

/-- `clear()`: back to the unfiltered state. -/
def RangeManager.clear (m : RangeManager) : RangeManager :=
  { m with ranges := [], whereOptions := none }

/-- `updateOrAppend(data)`: update when rows are selected, else append. -/
def RangeManager.updateOrAppend (m : RangeManager) (data : Obj) :
    Except String RangeManager :=
  if m.ranges.length > 0 then m.update data else Except.ok (m.append data)

/-- `updateOrPrepend(data)`: update when rows are selected, else prepend. -/
def RangeManager.updateOrPrepend (m : RangeManager) (data : Obj) :
    Except String RangeManager :=
  if m.ranges.length > 0 then m.update data else Except.ok (m.prepend data)

/-! ### Fixtures and basic lemmas -/

/-- A small concrete table: a header row and two data rows. -/
def sampleSheet : Sheet :=
  { cells := [[JSVal.str "name", JSVal.str "age"],
              [JSVal.str "Alice", JSVal.num 28],
              [JSVal.str "Bob", JSVal.num 35]],
    ncols := 2 }

/-- A manager over the sample table with one data row selected. -/
def sampleSelected : RangeManager :=
  { RangeManager.make sampleSheet with ranges := [mkLoc (some 2) none none (some 2)] }

theorem jsOr_of_truthy {a : JSVal} (h : truthy a = true) (b : JSVal) : jsOr a b = a := by
  simp [jsOr, h]

theorem jsOr_undef_left (b : JSVal) : jsOr JSVal.undef b = b := rfl

theorem objGet_cons (p : String × JSVal) (o : Obj) (k : String) :
    objGet (p :: o) k = if p.1 == k then p.2 else objGet o k := by
  cases h : p.1 == k <;> simp [objGet, List.find?_cons, h]

theorem deserializeRow_nil (headers : List (Nat × JSVal)) (data : Obj) (cur : List JSVal) :
    deserializeRow headers data cur []
      = Except.ok (headers.foldl (dStep (headers.map Prod.snd) data cur) []) := rfl

theorem deleteLoop_trace : ∀ (rows : List Nat) (s : Sheet) (i : Nat),
    (deleteLoop s i rows).2 = (rows.enumFrom i).map (fun p => (p.2 : Int) - (p.1 : Int))
  | [], _, _ => rfl
  | r :: rest, s, i => by
    simp [deleteLoop, List.enumFrom, deleteLoop_trace rest (s.deleteRow ((r : Int) - (i : Int))) (i + 1)]

theorem updateLoop_frame : ∀ (rows : List LocationDescriptor) (m : RangeManager) (data : Obj),
    ∃ m2, updateLoop data m rows = Except.ok m2 ∧ m2.ranges = m.ranges
      ∧ m2.whereOptions = m.whereOptions ∧ m2.configs = m.configs
  | [], m, _ => ⟨m, rfl, rfl, rfl, rfl⟩
  | loc :: rest, m, data => by
    simp only [updateLoop, deserializeRow_nil]
    exact updateLoop_frame rest _ data

theorem update_frame (m : RangeManager) (data : Obj) :
    ∃ m2, m.update data = Except.ok m2 ∧ m2.ranges = m.ranges
      ∧ m2.whereOptions = m.whereOptions ∧ m2.configs = m.configs := by
  by_cases h : m.ranges.length > 0
  · obtain ⟨m2, h1, h2, h3, h4⟩ := updateLoop_frame m.ranges m data
    exact ⟨m2, by simp [RangeManager.update, h, h1], h2, h3, h4⟩
  · exact ⟨m, by simp [RangeManager.update, h], rfl, rfl, rfl⟩

/-! ### Claims about deletion, frame effects, and unknown keys -/

/-- Claim C6: for every RangeSet, the Nth deletion issued by `deleteRows`
(1-based) targets the Nth selected row number decremented by N-1, compensating
for the shift caused by each prior deletion in the same call, and the call is
a no-op when the RangeSet is empty. -/
theorem deleteRows_shift_compensation (m : RangeManager) :
    (m.deleteRows).2
        = (m.ranges.map LocationDescriptor.row).enum.map (fun p => (p.2 : Int) - (p.1 : Int))
      ∧ ({ m with ranges := [] } : RangeManager).deleteRows = ({ m with ranges := [] }, []) := by
  constructor
  · by_cases h : m.ranges.length > 0
    · simp [RangeManager.deleteRows, h, deleteLoop_trace, List.enum]
    · have hnil : m.ranges = [] := by
        cases hr : m.ranges with
        | nil => rfl
        | cons a l => rw [hr] at h; simp at h
      simp [RangeManager.deleteRows, hnil]
  · rfl

/-- Claim C10: `fetch`, `update`, `deleteRows`, `append`, and `prepend` leave
both the stored RangeSet and the stored where-clause exactly as they were. -/
theorem ops_preserve_selection (m : RangeManager) (data : Obj) (colNames : List String) :
    (m.fetch colNames).1.ranges = m.ranges ∧ (m.fetch colNames).1.whereOptions = m.whereOptions
    ∧ (m.update data).map (fun x => (x.ranges, x.whereOptions))
        = Except.ok (m.ranges, m.whereOptions)
    ∧ (m.deleteRows).1.ranges = m.ranges ∧ (m.deleteRows).1.whereOptions = m.whereOptions
    ∧ (m.append data).ranges = m.ranges ∧ (m.append data).whereOptions = m.whereOptions
    ∧ (m.prepend data).ranges = m.ranges ∧ (m.prepend data).whereOptions = m.whereOptions := by
  refine ⟨rfl, rfl, ?_, ?_, ?_, rfl, rfl, ?_, ?_⟩
  · obtain ⟨m2, h1, h2, h3, _⟩ := update_frame m data
    simp [h1, h2, h3, Except.map]
  · simp only [RangeManager.deleteRows]
    split <;> rfl
  · simp only [RangeManager.deleteRows]
    split <;> rfl
  · simp only [RangeManager.prepend]
    split <;> rfl
  · simp only [RangeManager.prepend]
    split <;> rfl

/-- Claim C5 (counterexample): with a data row selected, `update` called with
a record whose only key is not a header name returns normally instead of
throwing an unknown-column error. -/
theorem update_unknown_key_cex :
    ∃ m2, sampleSelected.update [("bogus", JSVal.num 5)] = Except.ok m2 := by
  obtain ⟨m2, h1, _⟩ := update_frame sampleSelected [("bogus", JSVal.num 5)]
  exact ⟨m2, h1⟩

/-- Claim C1 (failing input): on a table whose last populated row is 3 (one
header row, two data rows), the empty where-clause selects rows 2, 3 and 4 —
including row 4, one past the last populated row. -/
theorem filter_empty_includes_row_beyond_last :
    sampleSheet.getLastRow = 3
    ∧ ((RangeManager.make sampleSheet).whereM []).1.ranges.map LocationDescriptor.row = [2, 3, 4]
    ∧ ((RangeManager.make sampleSheet).whereM []).2 = Except.ok () := by
  exact ⟨rfl, rfl, rfl⟩

/-- Claim C2 (counterexample): a filter call with an unknown key throws the
unknown-column error, yet the stored where-clause is not left unchanged — it
has been replaced by the offending clause before validation. -/
theorem where_invalid_keys_cex :
    (((RangeManager.make sampleSheet).whereM [("bogus", WhereVal.scalar (JSVal.num 1))]).2
        = Except.error "[ERROR] Invalid col name(s) found: bogus")
    ∧ ((RangeManager.make sampleSheet).whereM [("bogus", WhereVal.scalar (JSVal.num 1))]).1.whereOptions
        ≠ (RangeManager.make sampleSheet).whereOptions := by
  exact ⟨rfl, by decide⟩

theorem whereM_invalid (m : RangeManager) (options : WhereClause)
    (h : (options.map Prod.fst).filter
        (fun c => !((m.headers.map Prod.snd).contains (JSVal.str c))) ≠ []) :
    m.whereM options
      = ({ m with whereOptions := some options },
         Except.error ("[ERROR] Invalid col name(s) found: " ++ String.intercalate ","
           ((options.map Prod.fst).filter
             (fun c => !((m.headers.map Prod.snd).contains (JSVal.str c)))))) := by
  have hh : ({ m with whereOptions := some options } : RangeManager).headers = m.headers := rfl
  have hlen : 0 < ((options.map Prod.fst).filter
      (fun c => !((m.headers.map Prod.snd).contains (JSVal.str c)))).length :=
    List.length_pos.mpr h
  simp only [RangeManager.whereM, hh]
  rw [if_pos hlen]

/-- Claim C2 (amended): a filter call whose clause holds at least one
non-header key throws the unknown-column error naming exactly the invalid
keys and leaves the RangeSet unchanged, but the stored where-clause has
already been replaced by the new clause. -/
theorem where_invalid_keys_behavior (m : RangeManager) (options : WhereClause)
    (h : (options.map Prod.fst).filter
        (fun c => !((m.headers.map Prod.snd).contains (JSVal.str c))) ≠ []) :
    m.whereM options
      = ({ m with whereOptions := some options },
         Except.error ("[ERROR] Invalid col name(s) found: " ++ String.intercalate ","
           ((options.map Prod.fst).filter
             (fun c => !((m.headers.map Prod.snd).contains (JSVal.str c)))))) :=
  whereM_invalid m options h

/-- Witness for the amended claim C2 at a concrete manager and clause. -/
theorem where_invalid_keys_witness :
    (RangeManager.make sampleSheet).whereM [("bogus", WhereVal.scalar (JSVal.num 1))]
      = ({ RangeManager.make sampleSheet with
            whereOptions := some [("bogus", WhereVal.scalar (JSVal.num 1))] },
         Except.error "[ERROR] Invalid col name(s) found: bogus") := by
  exact where_invalid_keys_behavior (RangeManager.make sampleSheet)
    [("bogus", WhereVal.scalar (JSVal.num 1))] (by decide)

theorem contains_of_mem {a : String} {l : List String} (h : a ∈ l) : l.contains a = true := by
  simpa using h

theorem objGet_filter_keeps (keeps : List String) :
    ∀ (o : Obj) (k : String), keeps.contains k = true →
      objGet (o.filter (fun p => keeps.contains p.1)) k = objGet o k
  | [], _, _ => rfl
  | p :: o, k, hk => by
    by_cases hp : keeps.contains p.1 = true
    · rw [List.filter_cons, if_pos hp, objGet_cons, objGet_cons]
      by_cases hpk : (p.1 == k) = true
      · rw [if_pos hpk, if_pos hpk]
      · rw [if_neg hpk, if_neg hpk]
        exact objGet_filter_keeps keeps o k hk
    · have hpk : ¬((p.1 == k) = true) := by
        intro hq
        exact hp (by rw [show p.1 = k from by simpa using hq]; exact hk)
      rw [List.filter_cons, if_neg hp, objGet_cons, if_neg hpk]
      exact objGet_filter_keeps keeps o k hk

theorem foldl_dStep_congr (cns : List JSVal) (d1 d2 : Obj) (cur : List JSVal) :
    ∀ (entries : List (Nat × JSVal)) (acc : Obj),
      (∀ e ∈ entries, objGet d1 (keyOf e.2) = objGet d2 (keyOf e.2)) →
      entries.foldl (dStep cns d1 cur) acc = entries.foldl (dStep cns d2 cur) acc
  | [], _, _ => rfl
  | e :: rest, acc, h => by
    have he := h e (List.mem_cons_self e rest)
    have hrest := fun e2 he2 => h e2 (List.mem_cons_of_mem e he2)
    simp only [List.foldl_cons, dStep, he]
    exact foldl_dStep_congr cns d1 d2 cur rest _ hrest

/-- Claim C5 (amended): `update` never throws, whatever keys the record holds;
record keys that are not header names are silently ignored — dropping every
non-header-named entry from the record leaves the merge unchanged. -/
theorem update_unknown_keys_ignored :
    (∀ (m : RangeManager) (data : Obj), ∃ m2, m.update data = Except.ok m2)
    ∧ (∀ (headers : List (Nat × JSVal)) (data : Obj) (cur : List JSVal),
        deserializeRow headers data cur []
          = deserializeRow headers
              (data.filter (fun p => (headers.map (fun e => keyOf e.2)).contains p.1)) cur []) := by
  constructor
  · intro m data
    obtain ⟨m2, h1, _⟩ := update_frame m data
    exact ⟨m2, h1⟩
  · intro headers data cur
    rw [deserializeRow_nil, deserializeRow_nil]
    refine congrArg Except.ok ?_
    refine foldl_dStep_congr _ _ _ _ headers [] ?_
    intro e he
    exact (objGet_filter_keeps _ data (keyOf e.2)
      (contains_of_mem (List.mem_map_of_mem (fun e2 => keyOf e2.2) he))).symm

/-! ### Lemmas about the where machinery -/

theorem headers_whereOptions (m : RangeManager) (o : Option WhereClause) :
    ({ m with whereOptions := o } : RangeManager).headers = m.headers := rfl

theorem contains_of_mem2 {α : Type} [BEq α] [LawfulBEq α] {a : α} {l : List α}
    (h : a ∈ l) : l.contains a = true := by
  simpa using h

theorem header_contains_of_find {m : RangeManager} {c : String} {i : Nat} {hv : JSVal}
    (hfind : m.headers.find? (fun e => e.2 == JSVal.str c) = some (i, hv)) :
    ((m.headers.map Prod.snd).contains (JSVal.str c)) = true := by
  have hmem := List.mem_of_find?_eq_some hfind
  have hpred := List.find?_some hfind
  have hv2 : hv = JSVal.str c := by simpa using hpred
  have : hv ∈ m.headers.map Prod.snd := List.mem_map_of_mem Prod.snd hmem
  rw [hv2] at this
  exact contains_of_mem2 this

theorem mapM_single {α β : Type} (f : α → Except String β) (a : α) :
    List.mapM f [a] = (f a).map (fun b => [b]) := by
  cases h : f a <;> simp [List.mapM, List.mapM.loop, h, Except.map]

theorem foldlM_single {α β : Type} (f : β → α → Except String β) (init : β) (a : α) :
    List.foldlM f init [a] = f init a := by
  cases h : f init a <;> simp [List.foldlM, h]

theorem filterE_ok {α : Type} (f : α → Bool) : ∀ l : List α,
    filterE (fun a => Except.ok (f a)) l = Except.ok (l.filter f)
  | [] => rfl
  | a :: as => by
    cases h : f a <;> simp [filterE, h, List.filter_cons, filterE_ok f as, Except.map]

theorem filterE_congr {α : Type} (p q : α → Except String Bool) :
    ∀ l : List α, (∀ a ∈ l, p a = q a) → filterE p l = filterE q l
  | [], _ => rfl
  | a :: as, h => by
    have h1 := h a (List.mem_cons_self a as)
    have h2 := filterE_congr p q as (fun x hx => h x (List.mem_cons_of_mem a hx))
    simp only [filterE, h1, h2]

theorem evalPairs_single {n : String} {v : JSVal} {op : Operand} {b : Bool}
    (h : applyMethod n v op = some b) : evalPairs v [(n, op)] = Except.ok b := by
  cases b <;> simp [evalPairs, h]

theorem map_mkLoc_row (w : Option Nat) : ∀ (rows : List Nat), (∀ r ∈ rows, r ≠ 0) →
    (rows.map (fun row => (mkLoc (some row) none none w).row)) = rows
  | [], _ => rfl
  | r :: rest, h => by
    have h1 : r ≠ 0 := h r (List.mem_cons_self r rest)
    have ih := map_mkLoc_row w rest (fun x hx => h x (List.mem_cons_of_mem r hx))
    simp only [List.map_cons, ih]
    simp [mkLoc, orOne, h1]

theorem sheet_whereOptions (m : RangeManager) (o : Option WhereClause) :
    ({ m with whereOptions := o } : RangeManager).sheet = m.sheet := rfl

theorem configs_whereOptions (m : RangeManager) (o : Option WhereClause) :
    ({ m with whereOptions := o } : RangeManager).configs = m.configs := rfl

theorem whereM_single_valid (m : RangeManager) (c : String) (wv : WhereVal)
    (pairs : List (String × Operand)) (P : JSVal → Bool) (i : Nat) (hv : JSVal)
    (hfind : m.headers.find? (fun e => e.2 == JSVal.str c) = some (i, hv))
    (hpairs : (match wv with
        | WhereVal.ops l => l
        | WhereVal.scalar v0 => [("equal", Operand.val v0)]) = pairs)
    (heval : ∀ v : JSVal, evalPairs v pairs = Except.ok (P v)) :
    m.whereM [(c, wv)]
      = ({ m with
            whereOptions := some [(c, wv)],
            ranges := (((List.range m.sheet.getLastRow).map
                  (fun j => j + m.configs.firstRowNumber)).filter
                (fun r => P (m.sheet.getValue r i))).map
              (fun row => mkLoc (some row) none none (some m.sheet.getLastColumn)) },
         Except.ok ()) := by
  have hcont := header_contains_of_find hfind
  have hbc : buildCols { m with whereOptions := some [(c, wv)] } [(c, wv)]
      ([(c, wv)].map Prod.fst) = Except.ok [{ colId := i, methods := pairs }] := by
    simp only [List.map_cons, List.map_nil, buildCols, mapM_single, headers_whereOptions,
      hfind, clauseGet]
    cases wv with
    | scalar v0 =>
      simp only [List.find?] at hpairs ⊢
      simp [← hpairs, Except.map]
    | ops l =>
      simp only [List.find?] at hpairs ⊢
      simp [← hpairs, Except.map]
  have hsc : scanRows { m with whereOptions := some [(c, wv)] } [{ colId := i, methods := pairs }]
      = Except.ok (((List.range m.sheet.getLastRow).map
          (fun j => j + m.configs.firstRowNumber)).filter
            (fun r => P (m.sheet.getValue r i))) := by
    simp only [scanRows, foldlM_single, sheet_whereOptions, configs_whereOptions]
    rw [filterE_congr _ (fun row => Except.ok (P (m.sheet.getValue row i))) _
      (fun row _ => heval (m.sheet.getValue row i))]
    exact filterE_ok _ _
  have hmem : ∃ x, (x, JSVal.str c) ∈ m.headers := by
    have hm := List.mem_of_find?_eq_some hfind
    have hv2 : hv = JSVal.str c := by simpa using List.find?_some hfind
    exact ⟨i, by rwa [hv2] at hm⟩
  simp only [RangeManager.whereM, headers_whereOptions]
  rw [if_neg (by simp; exact hmem)]
  simp only [hbc, hsc, sheet_whereOptions]

theorem header_not_contains_of_find_none {m : RangeManager} {c : String}
    (hfind : m.headers.find? (fun e => e.2 == JSVal.str c) = none) :
    ((m.headers.map Prod.snd).contains (JSVal.str c)) = false := by
  cases hcc : (m.headers.map Prod.snd).contains (JSVal.str c)
  · rfl
  · have hmem : JSVal.str c ∈ m.headers.map Prod.snd := by simpa using hcc
    obtain ⟨e, he, hee⟩ := List.mem_map.mp hmem
    have hp := List.find?_eq_none.mp hfind e he
    simp [hee] at hp

theorem ne_zero_of_mem_candidates {r n k : Nat}
    (h : r ∈ (List.range n).map (fun j => j + k)) (hk : 0 < k) : r ≠ 0 := by
  obtain ⟨j, _, hj⟩ := List.mem_map.mp h
  omega

/-- Claim C4: filtering one column by a scalar selects exactly the scanned
rows whose cell at that column loosely equals the scalar; a `deepEqual`
clause selects exactly the rows with strict equality; and a scalar clause is
sugar for a single `equal` pair. -/
theorem filter_equal_semantics (s : Sheet) (c : String) (v : JSVal) (i : Nat) (hv : JSVal)
    (hfind : (RangeManager.make s).headers.find? (fun e => e.2 == JSVal.str c) = some (i, hv)) :
    (((RangeManager.make s).whereM [(c, WhereVal.scalar v)]).1.ranges.map LocationDescriptor.row
        = ((List.range s.getLastRow).map (fun j => j + 2)).filter
            (fun r => looseEq (s.getValue r i) v))
    ∧ (((RangeManager.make s).whereM
          [(c, WhereVal.ops [("deepEqual", Operand.val v)])]).1.ranges.map LocationDescriptor.row
        = ((List.range s.getLastRow).map (fun j => j + 2)).filter
            (fun r => (s.getValue r i) == v))
    ∧ ((RangeManager.make s).whereM [(c, WhereVal.scalar v)]).1.ranges
        = ((RangeManager.make s).whereM [(c, WhereVal.ops [("equal", Operand.val v)])]).1.ranges := by
  have h1 := whereM_single_valid (RangeManager.make s) c (WhereVal.scalar v)
    [("equal", Operand.val v)] (fun val => looseEq val v) i hv hfind rfl
    (fun val => evalPairs_single rfl)
  have h2 := whereM_single_valid (RangeManager.make s) c
    (WhereVal.ops [("deepEqual", Operand.val v)])
    [("deepEqual", Operand.val v)] (fun val => val == v) i hv hfind rfl
    (fun val => evalPairs_single rfl)
  have h3 := whereM_single_valid (RangeManager.make s) c
    (WhereVal.ops [("equal", Operand.val v)])
    [("equal", Operand.val v)] (fun val => looseEq val v) i hv hfind rfl
    (fun val => evalPairs_single rfl)
  refine ⟨?_, ?_, ?_⟩
  · rw [h1]
    rw [List.map_map]
    exact map_mkLoc_row _ _
      (fun r hr => ne_zero_of_mem_candidates (List.mem_of_mem_filter hr) (Nat.succ_pos 1))
  · rw [h2]
    rw [List.map_map]
    exact map_mkLoc_row _ _
      (fun r hr => ne_zero_of_mem_candidates (List.mem_of_mem_filter hr) (Nat.succ_pos 1))
  · rw [h1, h3]

/-- Witness for claim C4 on the sample table: filtering the name column by
the scalar value Bob, and by a deepEqual clause, both select exactly row 3. -/
theorem filter_equal_semantics_witness :
    ((RangeManager.make sampleSheet).whereM
        [("name", WhereVal.scalar (JSVal.str "Bob"))]).1.ranges.map LocationDescriptor.row = [3]
    ∧ ((RangeManager.make sampleSheet).whereM
        [("name", WhereVal.ops [("deepEqual", Operand.val (JSVal.str "Bob"))])]).1.ranges.map
          LocationDescriptor.row = [3] := by
  have h := filter_equal_semantics sampleSheet "name" (JSVal.str "Bob") 1 (JSVal.str "name") rfl
  exact ⟨h.1.trans (by rfl), h.2.1.trans (by rfl)⟩

/-- Claim C9: a `between` filter is symmetric in the order of its two bounds —
swapping them changes neither the selected ranges nor the outcome — and the
`between` operator is the inclusive range test between the minimum and the
maximum of the bounds. -/
theorem filter_between_symmetric (m : RangeManager) (c : String) (b1 b2 : Int) :
    ((m.whereM [(c, WhereVal.ops [("between", Operand.bounds [b1, b2])])]).1.ranges
        = (m.whereM [(c, WhereVal.ops [("between", Operand.bounds [b2, b1])])]).1.ranges)
    ∧ ((m.whereM [(c, WhereVal.ops [("between", Operand.bounds [b1, b2])])]).2
        = (m.whereM [(c, WhereVal.ops [("between", Operand.bounds [b2, b1])])]).2)
    ∧ (∀ v : JSVal, applyMethod "between" v (Operand.bounds [b1, b2])
        = some (jsLe (JSVal.num (min b1 b2)) v && jsLe v (JSVal.num (max b1 b2)))) := by
  have hap2 : ∀ v : JSVal, applyMethod "between" v (Operand.bounds [b2, b1])
      = some (jsLe (JSVal.num (min b1 b2)) v && jsLe v (JSVal.num (max b1 b2))) := by
    intro v
    show some (jsLe (JSVal.num (min b2 b1)) v && jsLe v (JSVal.num (max b2 b1))) = _
    rw [min_comm b2 b1, max_comm b2 b1]
  cases hfind : m.headers.find? (fun e => e.2 == JSVal.str c) with
  | none =>
    have hnc := header_not_contains_of_find_none hfind
    have hne : ∀ wv : WhereVal, ([(c, wv)].map Prod.fst).filter
        (fun c2 => !((m.headers.map Prod.snd).contains (JSVal.str c2))) ≠ [] := by
      intro wv
      have hpred : (!((m.headers.map Prod.snd).contains (JSVal.str c))) = true := by
        rw [hnc]
        rfl
      simp only [List.map_cons, List.map_nil, List.filter_cons, hpred, if_true, List.filter_nil]
      exact List.cons_ne_nil c []
    rw [whereM_invalid m _ (hne (WhereVal.ops [("between", Operand.bounds [b1, b2])])),
      whereM_invalid m _ (hne (WhereVal.ops [("between", Operand.bounds [b2, b1])]))]
    exact ⟨rfl, rfl, fun v => rfl⟩
  | some e =>
    obtain ⟨i, hv⟩ := e
    have h1 := whereM_single_valid m c (WhereVal.ops [("between", Operand.bounds [b1, b2])])
      [("between", Operand.bounds [b1, b2])]
      (fun v => jsLe (JSVal.num (min b1 b2)) v && jsLe v (JSVal.num (max b1 b2))) i hv hfind rfl
      (fun v => evalPairs_single rfl)
    have h2 := whereM_single_valid m c (WhereVal.ops [("between", Operand.bounds [b2, b1])])
      [("between", Operand.bounds [b2, b1])]
      (fun v => jsLe (JSVal.num (min b1 b2)) v && jsLe v (JSVal.num (max b1 b2))) i hv hfind rfl
      (fun v => evalPairs_single (hap2 v))
    rw [h1, h2]
    exact ⟨rfl, rfl, fun v => rfl⟩

/-! ### The deserialize fold, characterized -/

/-- Modelled from the spec guarantee for deserialize (section 4.2): one output
pair per header name in header order, keeping the requested names (all of
them, when the request is empty), each value being the record value when
truthy, else the current row value at that position. -/
def deserializeSpec (data : Obj) (colNames : List String) : List String → List JSVal → Obj
  | [], _ => []
  | n :: ns, cur =>
    if colNames.isEmpty || colNames.contains n then
      (n, jsOr (objGet data n) (cur.getD 0 JSVal.undef))
        :: deserializeSpec data colNames ns (cur.drop 1)
    else deserializeSpec data colNames ns (cur.drop 1)

theorem objSet_fresh {o : Obj} {k : String} (hk : objHasKey o k = false) (v : JSVal) :
    objSet o k v = o ++ [(k, v)] := by
  simp [objSet, hk]

theorem objHasKey_append (o : Obj) (p : String × JSVal) (k : String) :
    objHasKey (o ++ [p]) k = (objHasKey o k || (p.1 == k)) := by
  simp [objHasKey, List.any_append]


theorem foldl_dStep_spec (cns : List JSVal) (data : Obj) (cur : List JSVal) :
    ∀ (entries : List (Nat × JSVal)) (acc : Obj),
      (entries.map (fun e => keyOf e.2)).Nodup →
      (∀ e ∈ entries, objHasKey acc (keyOf e.2) = false) →
      entries.foldl (dStep cns data cur) acc
        = acc ++ entries.filterMap (fun e =>
            if cns.contains e.2 then
              some (keyOf e.2, jsOr (objGet data (keyOf e.2)) (cur.getD (e.1 - 1) JSVal.undef))
            else none)
  | [], acc, _, _ => by simp
  | e :: rest, acc, hnd, hfr => by
    rw [List.map_cons] at hnd
    have hnd0 := List.nodup_cons.mp hnd
    have hnd2 : (rest.map (fun e2 => keyOf e2.2)).Nodup := hnd0.2
    have hkx : keyOf e.2 ∉ rest.map (fun e2 => keyOf e2.2) := hnd0.1
    by_cases hc : cns.contains e.2 = true
    · have hacc := hfr e (List.mem_cons_self e rest)
      have hstep : dStep cns data cur acc e
          = acc ++ [(keyOf e.2, jsOr (objGet data (keyOf e.2)) (cur.getD (e.1 - 1) JSVal.undef))] := by
        unfold dStep
        rw [if_pos hc, objSet_fresh hacc]
      have hsome : (fun e2 : Nat × JSVal =>
            if cns.contains e2.2 then
              some (keyOf e2.2, jsOr (objGet data (keyOf e2.2)) (cur.getD (e2.1 - 1) JSVal.undef))
            else none) e
          = some (keyOf e.2, jsOr (objGet data (keyOf e.2)) (cur.getD (e.1 - 1) JSVal.undef)) := by
        show (if cns.contains e.2 then
            some (keyOf e.2, jsOr (objGet data (keyOf e.2)) (cur.getD (e.1 - 1) JSVal.undef))
          else none)
          = some (keyOf e.2, jsOr (objGet data (keyOf e.2)) (cur.getD (e.1 - 1) JSVal.undef))
        rw [if_pos hc]
      rw [List.foldl_cons, hstep,
        foldl_dStep_spec cns data cur rest _ hnd2 ?hfr2, List.append_assoc]
      · have hm : e.2 ∈ cns := by simpa using hc
        simp [List.filterMap_cons, hm]
      case hfr2 =>
        intro e2 he2
        have h1 := hfr e2 (List.mem_cons_of_mem e he2)
        have h2 : ¬(keyOf e.2 == keyOf e2.2) = true := by
          intro hEq
          exact hkx ((by simpa using hEq : keyOf e.2 = keyOf e2.2) ▸ List.mem_map_of_mem _ he2)
        rw [objHasKey_append, h1]
        simp only [Bool.false_or]
        cases hq : (keyOf e.2 == keyOf e2.2)
        · rfl
        · exact absurd hq h2
    · have hstep : dStep cns data cur acc e = acc := by
        unfold dStep
        rw [if_neg hc]
      have hnone : (fun e2 : Nat × JSVal =>
            if cns.contains e2.2 then
              some (keyOf e2.2, jsOr (objGet data (keyOf e2.2)) (cur.getD (e2.1 - 1) JSVal.undef))
            else none) e = none := by
        show (if cns.contains e.2 then
            some (keyOf e.2, jsOr (objGet data (keyOf e.2)) (cur.getD (e.1 - 1) JSVal.undef))
          else none) = none
        rw [if_neg hc]
      rw [List.foldl_cons, hstep,
        foldl_dStep_spec cns data cur rest acc hnd2
          (fun e2 he2 => hfr e2 (List.mem_cons_of_mem e he2))]
      have hm : ¬(e.2 ∈ cns) := by simpa using hc
      simp [List.filterMap_cons, hm]

theorem map_keyOf_mkHeadersFrom : ∀ (names : List String) (k : Nat),
    (mkHeadersFrom k (names.map JSVal.str)).map (fun e => keyOf e.2) = names
  | [], _ => rfl
  | n :: ns, k => by
    show n :: (mkHeadersFrom (k + 1) (ns.map JSVal.str)).map (fun e => keyOf e.2) = n :: ns
    rw [map_keyOf_mkHeadersFrom ns (k + 1)]

theorem map_snd_mkHeadersFrom : ∀ (names : List JSVal) (k : Nat),
    (mkHeadersFrom k names).map Prod.snd = names
  | [], _ => rfl
  | n :: ns, k => by
    show n :: (mkHeadersFrom (k + 1) ns).map Prod.snd = n :: ns
    rw [map_snd_mkHeadersFrom ns (k + 1)]

theorem contains_map_str : ∀ (l : List String) (n : String),
    ((l.map JSVal.str).contains (JSVal.str n)) = l.contains n
  | [], _ => rfl
  | a :: t, n => by
    have hh : (JSVal.str n == JSVal.str a) = (n == a) := by
      cases hq : n == a
      · have hne : n ≠ a := by simpa using hq
        simp [hne]
      · have heq : n = a := by simpa using hq
        simp [heq]
    simp only [List.map_cons, List.contains_cons, hh, contains_map_str t n]

theorem getD_drop (cur : List JSVal) (k : Nat) (d : JSVal) :
    (cur.drop k).getD 0 d = cur.getD k d := by
  simp [List.getD_eq_getElem?_getD, List.getElem?_drop]

theorem filterMap_mkHeadersFrom (cns : List JSVal) (data : Obj) (colNames : List String)
    (cur : List JSVal) :
    ∀ (names : List String) (k : Nat), 1 ≤ k →
      (∀ n ∈ names, cns.contains (JSVal.str n) = (colNames.isEmpty || colNames.contains n)) →
      (mkHeadersFrom k (names.map JSVal.str)).filterMap (fun e =>
          if cns.contains e.2 then
            some (keyOf e.2, jsOr (objGet data (keyOf e.2)) (cur.getD (e.1 - 1) JSVal.undef))
          else none)
        = deserializeSpec data colNames names (cur.drop (k - 1))
  | [], _, _, _ => rfl
  | n :: ns, k, hk, hcond => by
    have hh := hcond n (List.mem_cons_self n ns)
    have ih := filterMap_mkHeadersFrom cns data colNames cur ns (k + 1) (by omega)
      (fun n2 hn2 => hcond n2 (List.mem_cons_of_mem n hn2))
    have hdrop : cur.drop (k + 1 - 1) = (cur.drop (k - 1)).drop 1 := by
      rw [List.drop_drop]
      congr 1
      omega
    rw [hdrop] at ih
    show ((k, JSVal.str n) :: mkHeadersFrom (k + 1) (ns.map JSVal.str)).filterMap _
      = deserializeSpec data colNames (n :: ns) (cur.drop (k - 1))
    cases hE : (colNames.isEmpty || colNames.contains n) with
    | false =>
      have hcf : cns.contains (JSVal.str n) = false := by
        rw [hh, hE]
      simp only [List.filterMap_cons, hcf, Bool.false_eq_true, if_false]
      rw [ih]
      have hE2 : ¬(colNames = [] ∨ n ∈ colNames) := by simpa using hE
      simp [deserializeSpec, hE2]
    | true =>
      have hcf : cns.contains (JSVal.str n) = true := by
        rw [hh, hE]
      simp only [List.filterMap_cons, hcf, if_true]
      rw [ih]
      have hE2 : colNames = [] ∨ n ∈ colNames := by simpa using hE
      simp [deserializeSpec, hE2, getD_drop, keyOf]

theorem objGet_zip : ∀ (names : List String) (vals : List JSVal), names.Nodup →
    ∀ p ∈ names.zip vals, objGet (names.zip vals) p.1 = p.2
  | [], _, _, p, hp => absurd hp (by simp)
  | _ :: _, [], _, p, hp => absurd hp (by simp)
  | n :: ns, v :: vs, hnd, p, hp => by
    have hzip : (n :: ns).zip (v :: vs) = (n, v) :: ns.zip vs := rfl
    rw [hzip] at hp ⊢
    rcases List.mem_cons.mp hp with h1 | h2
    · rw [h1, objGet_cons]
      simp
    · obtain ⟨a, b⟩ := p
      have hab := List.of_mem_zip h2
      have hna : ¬((n == a) = true) := by
        intro hq
        exact (List.nodup_cons.mp hnd).1 ((by simpa using hq : n = a) ▸ hab.1)
      rw [objGet_cons, if_neg hna]
      exact objGet_zip ns vs (List.nodup_cons.mp hnd).2 (a, b) h2

theorem serializeRow_zip (R : Obj) (cur : List JSVal) :
    ∀ (names : List String) (vals : List JSVal) (k : Nat),
      vals.length = names.length →
      (∀ p ∈ names.zip vals, objGet R p.1 = p.2 ∧ truthy p.2 = true) →
      serializeRow (mkHeadersFrom k (names.map JSVal.str)) R cur = vals
  | [], [], _, _, _ => rfl
  | [], v :: vs, _, hlen, _ => by simp at hlen
  | n :: ns, [], _, hlen, _ => by simp at hlen
  | n :: ns, v :: vs, k, hlen, hR => by
    have h1 := hR (n, v) (List.mem_cons_self (n, v) (ns.zip vs))
    show jsOr (jsOr (objGet R n) (cur.getD (k - 1) JSVal.undef)) (JSVal.str "")
        :: serializeRow (mkHeadersFrom (k + 1) (ns.map JSVal.str)) R cur = v :: vs
    rw [h1.1, jsOr_of_truthy h1.2, jsOr_of_truthy h1.2,
      serializeRow_zip R cur ns vs (k + 1) (by simpa using hlen)
        (fun p hp => hR p (List.mem_cons_of_mem (n, v) hp))]

theorem deserializeRow_char (names : List String) (data : Obj) (cur : List JSVal)
    (colNames : List String) (hnd : names.Nodup) (hsub : ∀ c ∈ colNames, c ∈ names) :
    deserializeRow (mkHeaders (names.map JSVal.str)) data cur colNames
      = Except.ok (deserializeSpec data colNames names cur) := by
  have hsnd : (mkHeaders (names.map JSVal.str)).map Prod.snd = names.map JSVal.str :=
    map_snd_mkHeadersFrom (names.map JSVal.str) 1
  have hval : colNames.filter
      (fun c => !(((mkHeaders (names.map JSVal.str)).map Prod.snd).contains (JSVal.str c))) = [] := by
    rw [hsnd]
    refine List.filter_eq_nil_iff.mpr ?_
    intro c hc
    simpa using hsub c hc
  simp only [deserializeRow]
  rw [hval]
  rw [if_neg (by decide : ¬(([] : List String).length > 0))]
  refine congrArg Except.ok ?_
  have hkeys : (mkHeaders (names.map JSVal.str)).map (fun e => keyOf e.2) = names :=
    map_keyOf_mkHeadersFrom names 1
  rw [foldl_dStep_spec _ data cur (mkHeaders (names.map JSVal.str)) []
      (by rw [hkeys]; exact hnd) (fun e he => rfl),
    List.nil_append]
  have hcond : ∀ n ∈ names,
      ((if colNames.length = 0 then (mkHeaders (names.map JSVal.str)).map Prod.snd
        else colNames.map JSVal.str).contains (JSVal.str n))
      = (colNames.isEmpty || colNames.contains n) := by
    intro n hn
    cases hcn : colNames with
    | nil =>
      rw [if_pos (by simp), hsnd]
      simpa using hn
    | cons a t =>
      rw [if_neg (by simp [hcn]), contains_map_str]
      simp [hcn]
  exact filterMap_mkHeadersFrom _ data colNames cur names 1 (by omega) hcond

theorem deserializeSpec_zip : ∀ (names : List String) (vals : List JSVal),
    vals.length = names.length →
    deserializeSpec [] [] names vals = names.zip vals
  | [], [], _ => rfl
  | [], _ :: _, h => by simp at h
  | _ :: _, [], h => by simp at h
  | n :: ns, v :: vs, h => by
    show (n, v) :: deserializeSpec [] [] ns vs = (n, v) :: ns.zip vs
    exact congrArg (fun t => (n, v) :: t) (deserializeSpec_zip ns vs (by simpa using h))

theorem deserializeSpec_keys (data : Obj) (colNames : List String) :
    ∀ (names : List String) (cur : List JSVal),
      (deserializeSpec data colNames names cur).map Prod.fst
        = (if colNames.isEmpty then names else names.filter (fun n => colNames.contains n))
  | [], _ => by
    cases colNames <;> rfl
  | n :: ns, cur => by
    have ih := deserializeSpec_keys data colNames ns (cur.drop 1)
    rw [List.drop_one] at ih
    by_cases hE : colNames.isEmpty = true
    · simp [deserializeSpec, hE, ih]
    · by_cases hC : n ∈ colNames
      · simp [deserializeSpec, hE, hC, List.filter_cons, ih]
      · simp [deserializeSpec, hE, hC, List.filter_cons, ih]

/-- Claim C3 (counterexample): serializing the record `{age: 0}` (a falsy
value) over the current row `[7]` and deserializing the result yields
`{age: 7}`, not the original record — and the result depends on the current
row. -/
theorem serialize_roundtrip_cex :
    deserializeRow (mkHeaders [JSVal.str "age"]) []
        (serializeRow (mkHeaders [JSVal.str "age"]) [("age", JSVal.num 0)] [JSVal.num 7]) []
      = Except.ok [("age", JSVal.num 7)]
    ∧ ([("age", JSVal.num 7)] : Obj) ≠ [("age", JSVal.num 0)] := by
  exact ⟨rfl, by decide⟩

/-- Claim C3 (amended): for a full record over distinct header names whose
values are all truthy, serialize followed by deserialize reproduces the
record exactly, for every currentRow. -/
theorem serialize_roundtrip_truthy (names : List String) (vals : List JSVal) (cur : List JSVal)
    (hnd : names.Nodup) (hlen : vals.length = names.length)
    (htr : ∀ v ∈ vals, truthy v = true) :
    deserializeRow (mkHeaders (names.map JSVal.str)) []
        (serializeRow (mkHeaders (names.map JSVal.str)) (names.zip vals) cur) []
      = Except.ok (names.zip vals) := by
  have hser : serializeRow (mkHeaders (names.map JSVal.str)) (names.zip vals) cur = vals :=
    serializeRow_zip (names.zip vals) cur names vals 1 hlen
      (fun p hp => ⟨objGet_zip names vals hnd p hp, htr p.2 (List.of_mem_zip hp).2⟩)
  rw [hser, deserializeRow_char names [] vals [] hnd (by simp),
    deserializeSpec_zip names vals hlen]

/-- Witness for the amended claim C3 at a concrete record and current row. -/
theorem serialize_roundtrip_truthy_witness :
    deserializeRow (mkHeaders [JSVal.str "name", JSVal.str "age"]) []
        (serializeRow (mkHeaders [JSVal.str "name", JSVal.str "age"])
          [("name", JSVal.str "Zoe"), ("age", JSVal.num 30)] [JSVal.str "x"]) []
      = Except.ok [("name", JSVal.str "Zoe"), ("age", JSVal.num 30)] := by
  exact serialize_roundtrip_truthy ["name", "age"] [JSVal.str "Zoe", JSVal.num 30]
    [JSVal.str "x"] (by decide) rfl (by decide)

/-- Claim C8: for distinct header names and requested names that all appear
among them, deserialize never throws, its output is exactly one pair per
header name in header position order restricted to the effective requested
set (all names when the request is empty) with no extra keys, and a value
missing from both the record and the current row comes out undefined. -/
theorem deserialize_requested_keys (names : List String) (data : Obj) (cur : List JSVal)
    (colNames : List String) (hnd : names.Nodup) (hsub : ∀ c ∈ colNames, c ∈ names) :
    deserializeRow (mkHeaders (names.map JSVal.str)) data cur colNames
      = Except.ok (deserializeSpec data colNames names cur)
    ∧ (deserializeSpec data colNames names cur).map Prod.fst
      = (if colNames.isEmpty then names else names.filter (fun n => colNames.contains n)) :=
  ⟨deserializeRow_char names data cur colNames hnd hsub,
    deserializeSpec_keys data colNames names cur⟩

/-- Witness for claim C8: requesting only the age column of the sample header
row never throws and yields exactly that key. -/
theorem deserialize_requested_keys_witness :
    deserializeRow (mkHeaders [JSVal.str "name", JSVal.str "age"]) []
        [JSVal.str "Bob", JSVal.num 35] ["age"]
      = Except.ok [("age", JSVal.num 35)] := by
  have h := deserialize_requested_keys ["name", "age"] [] [JSVal.str "Bob", JSVal.num 35]
    ["age"] (by decide) (by decide)
  exact h.1.trans (by rfl)

/-! ### Writing rows: append and in-place update -/

theorem padTo_of_le {α : Type} (l : List α) {n : Nat} (h : n ≤ l.length) (d : α) :
    padTo l n d = l := by
  simp [padTo, Nat.sub_eq_zero_of_le h]

theorem writeRegion_single (s : Sheet) (row col : Nat) (vals : List JSVal) :
    s.writeRegion row col [vals] = s.writeRowAt (row + 0) col vals := rfl

theorem set_at_length {α : Type} : ∀ (l : List α) (x y : α),
    (l ++ [x]).set l.length y = l ++ [y]
  | [], _, _ => rfl
  | a :: t, x, y => by
    show a :: ((t ++ [x]).set t.length y) = a :: (t ++ [y])
    rw [set_at_length t x y]

theorem writeRowAt_append (s : Sheet) (vals : List JSVal) :
    s.writeRowAt (s.cells.length + 1) 1 vals = { s with cells := s.cells ++ [vals] } := by
  unfold Sheet.writeRowAt
  have h1 : padTo s.cells (s.cells.length + 1) [] = s.cells ++ [[]] := by
    simp [padTo]
  rw [h1]
  have h2 : (s.cells ++ [([] : List JSVal)]).getD s.cells.length [] = ([] : List JSVal) := by
    rw [List.getD_eq_getElem?_getD, List.getElem?_append_right (Nat.le_refl _)]
    simp
  have h3 : spliceAt ([] : List JSVal) 1 vals (JSVal.str "") = vals := by
    simp [spliceAt, padTo]
  have h4 : spliceAt ((s.cells ++ [[]]).getD s.cells.length []) 1 vals (JSVal.str "") = vals := by
    rw [h2]
    exact h3
  show ({ cells := (s.cells ++ [[]]).set s.cells.length (spliceAt ((s.cells ++ [[]]).getD s.cells.length []) 1 vals (JSVal.str "")), ncols := s.ncols } : Sheet) = { cells := s.cells ++ [vals], ncols := s.ncols }
  rw [h4, set_at_length]

theorem append_cells (m : RangeManager) (data : Obj) :
    m.append data
      = { m with sheet :=
          { m.sheet with cells := m.sheet.cells ++ [serializeRow m.headers data []] } } := by
  unfold RangeManager.append
  rw [writeRegion_single]
  rw [show m.sheet.getLastRow + 1 + 0 = m.sheet.cells.length + 1 from rfl]
  rw [writeRowAt_append]

theorem writeRowAt_length (s : Sheet) (row col : Nat) (vals : List JSVal)
    (h : row ≤ s.cells.length) :
    (s.writeRowAt row col vals).cells.length = s.cells.length := by
  unfold Sheet.writeRowAt
  rw [padTo_of_le s.cells h]
  simp

theorem updateLoop_lastRow : ∀ (rows : List LocationDescriptor) (m : RangeManager) (data : Obj),
    (∀ loc ∈ rows, 1 ≤ loc.row ∧ loc.row ≤ m.sheet.cells.length) →
    ∃ m2, updateLoop data m rows = Except.ok m2
      ∧ m2.sheet.cells.length = m.sheet.cells.length ∧ m2.ranges = m.ranges
      ∧ m2.whereOptions = m.whereOptions
  | [], m, _, _ => ⟨m, rfl, rfl, rfl, rfl⟩
  | loc :: rest, m, data, hb => by
    have hloc := hb loc (List.mem_cons_self loc rest)
    simp only [updateLoop, deserializeRow_nil]
    set g := serializeRow m.headers
      (m.headers.foldl (dStep (m.headers.map Prod.snd) data
        ((m.sheet.readRegion loc.row loc.column loc.numRows loc.numColumns).getD 0 [])) []) []
      with hg
    have hlen2 : ({ m with sheet := m.sheet.writeRegion loc.row loc.column [g] }
        : RangeManager).sheet.cells.length = m.sheet.cells.length := by
      show (m.sheet.writeRegion loc.row loc.column [g]).cells.length = m.sheet.cells.length
      rw [writeRegion_single]
      exact writeRowAt_length m.sheet (loc.row + 0) loc.column g (by omega)
    obtain ⟨m2, e1, e2, e3, e4⟩ := updateLoop_lastRow rest
      { m with sheet := m.sheet.writeRegion loc.row loc.column [g] } data
      (by
        intro l2 hl2
        have hh := hb l2 (List.mem_cons_of_mem loc hl2)
        rw [hlen2]
        exact hh)
    exact ⟨m2, e1, e2.trans hlen2, e3, e4⟩

/-- Claim C7: on an empty RangeSet `updateOrAppend` writes exactly one new
row — the record serialized against the headers with no current values —
immediately after the last populated row; on a non-empty RangeSet naming
existing rows it updates in place and adds no row. -/
theorem updateOrAppend_spec (m : RangeManager) (data : Obj) :
    (m.ranges = [] →
      m.updateOrAppend data
        = Except.ok { m with sheet :=
            { m.sheet with cells := m.sheet.cells ++ [serializeRow m.headers data []] } })
    ∧ (m.ranges ≠ [] →
        (∀ loc ∈ m.ranges, 1 ≤ loc.row ∧ loc.row ≤ m.sheet.getLastRow) →
        ∃ m2, m.updateOrAppend data = Except.ok m2
          ∧ m2.sheet.getLastRow = m.sheet.getLastRow ∧ m2.ranges = m.ranges) := by
  constructor
  · intro hnil
    have hlen0 : ¬(m.ranges.length > 0) := by simp [hnil]
    simp only [RangeManager.updateOrAppend]
    rw [if_neg hlen0, append_cells]
  · intro hne hb
    have hlen0 : m.ranges.length > 0 := by
      cases hr : m.ranges with
      | nil => exact absurd hr hne
      | cons a t => simp [hr]
    simp only [RangeManager.updateOrAppend, RangeManager.update]
    rw [if_pos hlen0, if_pos hlen0]
    obtain ⟨m2, e1, e2, e3, _⟩ := updateLoop_lastRow m.ranges m data hb
    exact ⟨m2, e1, e2, e3⟩

/-- Witness for claim C7: appending to the sample table with no selection
adds exactly the serialized row, and updating with a selected existing row
returns normally without changing the row count. -/
theorem updateOrAppend_spec_witness :
    (RangeManager.make sampleSheet).updateOrAppend
        [("name", JSVal.str "Zoe"), ("age", JSVal.num 30)]
      = Except.ok { RangeManager.make sampleSheet with sheet :=
          { sampleSheet with cells := sampleSheet.cells ++ [[JSVal.str "Zoe", JSVal.num 30]] } }
    ∧ ∃ m2, sampleSelected.updateOrAppend [("age", JSVal.num 99)] = Except.ok m2
        ∧ m2.sheet.getLastRow = sampleSelected.sheet.getLastRow
        ∧ m2.ranges = sampleSelected.ranges := by
  constructor
  · have h := (updateOrAppend_spec (RangeManager.make sampleSheet)
      [("name", JSVal.str "Zoe"), ("age", JSVal.num 30)]).1 rfl
    exact h.trans (by rfl)
  · exact (updateOrAppend_spec sampleSelected [("age", JSVal.num 99)]).2
      (by decide) (by decide)
